import Mathlib

/-!
Verification of the PMS (Post Message Service) source, `src/PMS.js`, against its
natural-language specification.

The development shallowly embeds the JavaScript source:

* `JSValue` is the universe of JSON-representable JS values (numbers restricted
  to integers; JS floating point is out of scope of the embedding).
* `jsonStringify` / `jsonParse` model the host primitives `JSON.stringify` /
  `JSON.parse` used by the codec (`PMS.prototype.send`, `_processMessage`).
* The PMS state machine (`pmsSet`, `on`, `once`, `trigger`, `_fire`,
  `_offCallback`, `send`, `_processMessage`, `_receive`) is translated
  line-by-line; callbacks are identified by opaque `Nat` identities and every
  callback invocation is recorded in an output list.
-/

/-- A JSON-representable JavaScript value.  JS `undefined` is *not* a member:
where the source can observe `undefined` (absent object properties, absent
arguments) the embedding uses `Option JSValue` with `none` for `undefined`.
Numbers are restricted to integers; the claims never exercise non-integer
numerals and JS binary floating point is not representable in the embedding. -/
inductive JSValue where
  | null
  | bool (b : Bool)
  | num (n : Int)
  | str (s : String)
  | arr (elems : List JSValue)
  | obj (fields : List (String × JSValue))
deriving Repr

mutual
/-- Boolean structural equality on `JSValue` (the derive handler does not
support nested inductives, so decidable equality is built by hand). -/
def jsEq : JSValue → JSValue → Bool
  | .null, .null => true
  | .bool a, .bool b => a == b
  | .num a, .num b => a == b
  | .str a, .str b => a == b
  | .arr a, .arr b => jsEqItems a b
  | .obj a, .obj b => jsEqProps a b
  | _, _ => false

def jsEqItems : List JSValue → List JSValue → Bool
  | [], [] => true
  | a :: as, b :: bs => jsEq a b && jsEqItems as bs
  | _, _ => false

def jsEqProps : List (String × JSValue) → List (String × JSValue) → Bool
  | [], [] => true
  | (k, a) :: as, (k', b) :: bs => k == k' && (jsEq a b && jsEqProps as bs)
  | _, _ => false
end

mutual
theorem jsEq_iff : ∀ a b : JSValue, jsEq a b = true ↔ a = b
  | .null, b => by cases b <;> simp [jsEq]
  | .bool x, b => by cases b <;> simp [jsEq]
  | .num x, b => by cases b <;> simp [jsEq]
  | .str x, b => by cases b <;> simp [jsEq]
  | .arr xs, b => by
    cases b <;> simp only [jsEq, Bool.false_eq_true, false_iff, ne_eq, reduceCtorEq,
      not_false_eq_true, JSValue.arr.injEq]
    exact jsEqItems_iff xs _
  | .obj xs, b => by
    cases b <;> simp only [jsEq, Bool.false_eq_true, false_iff, ne_eq, reduceCtorEq,
      not_false_eq_true, JSValue.obj.injEq]
    exact jsEqProps_iff xs _

theorem jsEqItems_iff : ∀ a b : List JSValue, jsEqItems a b = true ↔ a = b
  | [], b => by cases b <;> simp [jsEqItems]
  | x :: xs, b => by
    cases b with
    | nil => simp [jsEqItems]
    | cons y ys =>
      simp only [jsEqItems, Bool.and_eq_true, List.cons.injEq]
      rw [jsEq_iff x y, jsEqItems_iff xs ys]

theorem jsEqProps_iff : ∀ a b : List (String × JSValue), jsEqProps a b = true ↔ a = b
  | [], b => by cases b <;> simp [jsEqProps]
  | (k, x) :: xs, b => by
    cases b with
    | nil => simp [jsEqProps]
    | cons y ys =>
      obtain ⟨k', y⟩ := y
      simp only [jsEqProps, Bool.and_eq_true, List.cons.injEq, Prod.mk.injEq, beq_iff_eq]
      rw [jsEq_iff x y, jsEqProps_iff xs ys, and_assoc]
end

instance : DecidableEq JSValue := fun a b =>
  decidable_of_iff (jsEq a b = true) (jsEq_iff a b)

/-! ### A model of `JSON.stringify`

`JSON.stringify` with no replacer and no spacing: scalars print to their JSON
literal, strings are quoted with the JS escape rules (`"` and `\` escaped,
`\b \t \n \f \r` by their short escapes, other control characters as
`\u00XX`), arrays and objects print their parts separated by `,` with no
whitespace, object members in property insertion order. -/

/-- Lower-case hex digit of `k % 16`. -/
def hexDigitCh (k : Nat) : Char :=
  if k < 10 then Char.ofNat ('0'.toNat + k) else Char.ofNat ('a'.toNat + k - 10)

/-- The characters `JSON.stringify` emits for one character of a string. -/
def escSeq (c : Char) : List Char :=
  if c = '"' then ['\\', '"']
  else if c = '\\' then ['\\', '\\']
  else if c = '\x08' then ['\\', 'b']
  else if c = '\t' then ['\\', 't']
  else if c = '\n' then ['\\', 'n']
  else if c = '\x0c' then ['\\', 'f']
  else if c = '\r' then ['\\', 'r']
  else if c.toNat < 32 then ['\\', 'u', '0', '0', hexDigitCh (c.toNat / 16), hexDigitCh (c.toNat % 16)]
  else [c]

/-- A quoted, escaped JSON string literal. -/
def printStrLit (s : String) : List Char :=
  '"' :: (s.data.flatMap escSeq ++ ['"'])

/-- Fueled digit accumulator: prepends the digits of `n` to `acc`.  Structural
on the fuel so the kernel can evaluate it; `natDigits` supplies enough. -/
def natDigitsGo : Nat → Nat → List Char → List Char
  | 0, _, acc => acc
  | fuel + 1, n, acc =>
    if n < 10 then Char.ofNat ('0'.toNat + n) :: acc
    else natDigitsGo fuel (n / 10) (Char.ofNat ('0'.toNat + n % 10) :: acc)

/-- Decimal digit characters of `n`, most significant first. -/
def natDigits (n : Nat) : List Char := natDigitsGo (n + 1) n []

/-- Decimal notation of an integer, as `String(n)` prints it in JS. -/
def intChars (n : Int) : List Char :=
  if n < 0 then '-' :: natDigits n.natAbs else natDigits n.natAbs

/-- The keyword literal for `null`. -/
def litNull : List Char := ['n', 'u', 'l', 'l']

/-- The keyword literal for `true`. -/
def litTrue : List Char := ['t', 'r', 'u', 'e']

/-- The keyword literal for `false`. -/
def litFalse : List Char := ['f', 'a', 'l', 's', 'e']

mutual
/-- `JSON.stringify`, producing a character list. -/
def printVal : JSValue → List Char
  | .null => litNull
  | .bool true => litTrue
  | .bool false => litFalse
  | .num n => intChars n
  | .str s => printStrLit s
  | .arr l => '[' :: (printItems l ++ [']'])
  | .obj l => '{' :: (printProps l ++ ['}'])

/-- Array elements, comma separated. -/
def printItems : List JSValue → List Char
  | [] => []
  | v :: vs => printVal v ++ printItemsRest vs

def printItemsRest : List JSValue → List Char
  | [] => []
  | v :: vs => ',' :: (printVal v ++ printItemsRest vs)

/-- Object members, comma separated, key `:` value. -/
def printProps : List (String × JSValue) → List Char
  | [] => []
  | (k, v) :: ps => printStrLit k ++ ':' :: (printVal v ++ printPropsRest ps)

def printPropsRest : List (String × JSValue) → List Char
  | [] => []
  | (k, v) :: ps => ',' :: (printStrLit k ++ ':' :: (printVal v ++ printPropsRest ps))
end

/-- The model of `JSON.stringify`. -/
def jsonStringify (v : JSValue) : String := String.mk (printVal v)

/-! ### A model of `JSON.parse`

A recursive-descent parser for the JSON grammar: optional whitespace around
tokens, `null` / `true` / `false`, integer numerals (sign, no leading zeros;
fractional and exponent forms are outside the integer-number restriction of the
embedding), strings with the JSON escapes, arrays and objects.  Nesting
recursion is fueled; `jsonParse` supplies fuel exceeding the input length,
which the round-trip theorem shows is enough for every printed value. -/

/-- JSON insignificant whitespace. -/
def wsCh (c : Char) : Bool := c = ' ' || c = '\t' || c = '\n' || c = '\r'

def skipBlanks : List Char → List Char
  | [] => []
  | c :: cs => if wsCh c then skipBlanks cs else c :: cs

def decDigit (c : Char) : Bool := 48 ≤ c.toNat && c.toNat ≤ 57

/-- Value of one hex digit, if it is one. -/
def hexNib (c : Char) : Option Nat :=
  let n := c.toNat
  if 48 ≤ n ∧ n ≤ 57 then some (n - 48)
  else if 97 ≤ n ∧ n ≤ 102 then some (n - 87)
  else if 65 ≤ n ∧ n ≤ 70 then some (n - 55)
  else none

/-- Contents of a string literal after the opening quote.  Raw control
characters are rejected, as `JSON.parse` rejects them.  (`\uXXXX` maps through
`Char.ofNat`; surrogate halves, which Lean strings cannot hold, are not
modelled.) -/
def readStrBody : List Char → Option (List Char × List Char)
  | [] => none
  | '"' :: cs => some ([], cs)
  | '\\' :: esc =>
    match esc with
    | '"' :: cs => (readStrBody cs).map (fun r => ('"' :: r.1, r.2))
    | '\\' :: cs => (readStrBody cs).map (fun r => ('\\' :: r.1, r.2))
    | '/' :: cs => (readStrBody cs).map (fun r => ('/' :: r.1, r.2))
    | 'b' :: cs => (readStrBody cs).map (fun r => ('\x08' :: r.1, r.2))
    | 'f' :: cs => (readStrBody cs).map (fun r => ('\x0c' :: r.1, r.2))
    | 'n' :: cs => (readStrBody cs).map (fun r => ('\n' :: r.1, r.2))
    | 'r' :: cs => (readStrBody cs).map (fun r => ('\r' :: r.1, r.2))
    | 't' :: cs => (readStrBody cs).map (fun r => ('\t' :: r.1, r.2))
    | 'u' :: a :: b :: c :: d :: cs =>
      match hexNib a, hexNib b, hexNib c, hexNib d with
      | some x, some y, some z, some w =>
        (readStrBody cs).map (fun r => (Char.ofNat (((x * 16 + y) * 16 + z) * 16 + w) :: r.1, r.2))
      | _, _, _, _ => none
    | _ => none
  | c :: cs =>
    if c.toNat < 32 then none
    else (readStrBody cs).map (fun r => (c :: r.1, r.2))

/-- The maximal run of decimal digits at the head of the input. -/
def readDigits : List Char → List Char × List Char
  | [] => ([], [])
  | c :: cs =>
    if decDigit c then
      let r := readDigits cs
      (c :: r.1, r.2)
    else ([], c :: cs)

/-- Numeric value of a digit run. -/
def digitsVal (ds : List Char) : Nat :=
  ds.foldl (fun a c => a * 10 + (c.toNat - '0'.toNat)) 0

/-- An integer numeral: optional `-`, a digit run with no leading zero. -/
def readIntNum (cs : List Char) : Option (Int × List Char) :=
  let isNeg : Bool := cs.head? = some '-'
  let body := if isNeg then cs.tail else cs
  match readDigits body with
  | ([], _) => none
  | (d :: ds, rest) =>
    if d = '0' ∧ ds ≠ [] then none
    else
      let m : Int := digitsVal (d :: ds)
      some (if isNeg then -m else m, rest)

mutual
/-- One JSON value, leading whitespace allowed. -/
def parseVal : Nat → List Char → Option (JSValue × List Char)
  | 0, _ => none
  | fuel + 1, cs =>
    match skipBlanks cs with
    | 'n' :: 'u' :: 'l' :: 'l' :: r => some (.null, r)
    | 't' :: 'r' :: 'u' :: 'e' :: r => some (.bool true, r)
    | 'f' :: 'a' :: 'l' :: 's' :: 'e' :: r => some (.bool false, r)
    | '"' :: r => (readStrBody r).map (fun p => (.str (String.mk p.1), p.2))
    | '[' :: r =>
      match skipBlanks r with
      | [] => none
      | c :: r2 =>
        if c = ']' then some (.arr [], r2)
        else
          match parseItems fuel (c :: r2) with
          | some (vs, r3) => some (.arr vs, r3)
          | none => none
    | '{' :: r =>
      match skipBlanks r with
      | [] => none
      | c :: r2 =>
        if c = '}' then some (.obj [], r2)
        else
          match parseProps fuel (c :: r2) with
          | some (ps, r3) => some (.obj ps, r3)
          | none => none
    | c :: r =>
      if c = '-' || decDigit c then
        (readIntNum (c :: r)).map (fun p => (.num p.1, p.2))
      else none
    | [] => none

/-- One or more comma-separated array elements, then `]`. -/
def parseItems : Nat → List Char → Option (List JSValue × List Char)
  | 0, _ => none
  | fuel + 1, cs =>
    match parseVal fuel cs with
    | none => none
    | some (v, r) =>
      match skipBlanks r with
      | ',' :: r2 =>
        match parseItems fuel r2 with
        | some (vs, r3) => some (v :: vs, r3)
        | none => none
      | ']' :: r2 => some ([v], r2)
      | _ => none

/-- One or more comma-separated `"key": value` members, then `}`. -/
def parseProps : Nat → List Char → Option (List (String × JSValue) × List Char)
  | 0, _ => none
  | fuel + 1, cs =>
    match skipBlanks cs with
    | '"' :: r =>
      match readStrBody r with
      | none => none
      | some (k, r1) =>
        match skipBlanks r1 with
        | ':' :: r2 =>
          match parseVal fuel r2 with
          | none => none
          | some (v, r3) =>
            match skipBlanks r3 with
            | ',' :: r4 =>
              match parseProps fuel r4 with
              | some (ps, r5) => some ((String.mk k, v) :: ps, r5)
              | none => none
            | '}' :: r4 => some ([(String.mk k, v)], r4)
            | _ => none
        | _ => none
    | _ => none
end

/-- The model of `JSON.parse`: `none` when `JSON.parse` throws. -/
def jsonParse (s : String) : Option JSValue :=
  match parseVal (s.data.length + 1) s.data with
  | some (v, r) => if skipBlanks r = [] then some v else none
  | none => none

/-! ### Round-trip: digits and integers -/

theorem natDigitsGo_acc (fuel : Nat) : ∀ (n : Nat) (acc : List Char),
    natDigitsGo fuel n acc = natDigitsGo fuel n [] ++ acc := by
  induction fuel with
  | zero => intro n acc; rfl
  | succ f ih =>
    intro n acc
    by_cases h : n < 10
    · simp [natDigitsGo, h]
    · simp only [natDigitsGo, if_neg h]
      rw [ih (n / 10), ih (n / 10) (Char.ofNat ('0'.toNat + n % 10) :: [])]
      simp

theorem natDigitsGo_fuel : ∀ (n fuel fuel' : Nat), n < fuel → n < fuel' →
    natDigitsGo fuel n [] = natDigitsGo fuel' n [] := by
  intro n
  induction n using Nat.strong_induction_on with
  | _ n ih =>
    intro fuel fuel' hf hf'
    match fuel, fuel' with
    | f + 1, f' + 1 =>
      by_cases h : n < 10
      · simp [natDigitsGo, h]
      · have hdiv : n / 10 < n := Nat.div_lt_self (by omega) (by omega)
        simp only [natDigitsGo, if_neg h]
        rw [natDigitsGo_acc f, natDigitsGo_acc f',
          ih (n / 10) hdiv f f' (by omega) (by omega)]

/-- The one-step unfolding of `natDigits`, last digit peeled off. -/
theorem natDigits_peel (n : Nat) :
    natDigits n = (if n < 10 then [] else natDigits (n / 10))
      ++ [Char.ofNat ('0'.toNat + n % 10)] := by
  by_cases h : n < 10
  · simp only [natDigits, natDigitsGo, if_pos h, Nat.mod_eq_of_lt h]
    simp
  · have hdiv : n / 10 < n := Nat.div_lt_self (by omega) (by omega)
    simp only [natDigits, natDigitsGo, if_neg h]
    rw [natDigitsGo_acc n, natDigitsGo_fuel (n / 10) n (n / 10 + 1) (by omega) (by omega)]
    rfl

theorem digitCh_decDigit {k : Nat} (h : k < 10) :
    decDigit (Char.ofNat ('0'.toNat + k)) = true ∧
      (Char.ofNat ('0'.toNat + k)).toNat - '0'.toNat = k := by
  interval_cases k <;> simp_all <;> decide

theorem natDigits_all_digits (n : Nat) : ∀ c ∈ natDigits n, decDigit c = true := by
  induction n using Nat.strong_induction_on with
  | _ n ih =>
    rw [natDigits_peel]
    intro c hc
    rcases List.mem_append.mp hc with h | h
    · by_cases h10 : n < 10
      · simp [h10] at h
      · exact ih (n / 10) (Nat.div_lt_self (by omega) (by omega)) c (by simpa [h10] using h)
    · rw [List.mem_singleton.mp h]
      exact (digitCh_decDigit (Nat.mod_lt _ (by omega))).1

theorem natDigits_ne_nil (n : Nat) : natDigits n ≠ [] := by
  rw [natDigits_peel]; simp

theorem natDigits_head_ne_zero (n : Nat) (hn : n ≠ 0) :
    ∀ c t, natDigits n = c :: t → c ≠ '0' := by
  induction n using Nat.strong_induction_on with
  | _ n ih =>
    intro c t hct
    rw [natDigits_peel] at hct
    by_cases h : n < 10
    · rw [if_pos h] at hct
      simp only [List.nil_append, List.cons.injEq] at hct
      obtain ⟨rfl, -⟩ := hct
      interval_cases n
      · exact absurd rfl hn
      all_goals decide
    · rw [if_neg h] at hct
      obtain ⟨c', t', heq⟩ := List.exists_cons_of_ne_nil (natDigits_ne_nil (n / 10))
      rw [heq] at hct
      simp only [List.cons_append, List.cons.injEq] at hct
      exact hct.1 ▸ ih (n / 10) (Nat.div_lt_self (by omega) (by omega))
        (by omega) c' t' heq

theorem digitsVal_append_single (ds : List Char) (c : Char) :
    digitsVal (ds ++ [c]) = digitsVal ds * 10 + (c.toNat - '0'.toNat) := by
  simp [digitsVal, List.foldl_append]

theorem digitsVal_natDigits (n : Nat) : digitsVal (natDigits n) = n := by
  induction n using Nat.strong_induction_on with
  | _ n ih =>
    rw [natDigits_peel]
    by_cases h : n < 10
    · simp only [if_pos h, List.nil_append]
      have hd := (digitCh_decDigit (show n % 10 < 10 from Nat.mod_lt _ (by omega))).2
      simp only [digitsVal, List.foldl_cons, List.foldl_nil]
      omega
    · rw [if_neg h, digitsVal_append_single,
        ih (n / 10) (Nat.div_lt_self (by omega) (by omega)),
        (digitCh_decDigit (show n % 10 < 10 from Nat.mod_lt _ (by omega))).2]
      omega

/-- A remainder that cannot extend a digit run: empty or headed by a non-digit. -/
def digitStop : List Char → Bool
  | [] => true
  | c :: _ => !decDigit c

theorem readDigits_stop {cs : List Char} (h : digitStop cs = true) :
    readDigits cs = ([], cs) := by
  match cs with
  | [] => rfl
  | c :: t =>
    simp only [digitStop, Bool.not_eq_true'] at h
    simp [readDigits, h]

theorem readDigits_run (ds : List Char) (hds : ∀ c ∈ ds, decDigit c = true)
    {rest : List Char} (hrest : digitStop rest = true) :
    readDigits (ds ++ rest) = (ds, rest) := by
  induction ds with
  | nil => simpa using readDigits_stop hrest
  | cons c t ih =>
    have hc : decDigit c = true := hds c (by simp)
    have ht := ih (fun x hx => hds x (by simp [hx]))
    simp [readDigits, hc, ht]

theorem no_digit_is_minus {c : Char} (h : decDigit c = true) : c ≠ '-' := by
  intro rfl'
  subst rfl'
  exact absurd h (by decide)

/-- Parsing a printed integer numeral recovers it, whenever the remainder
cannot extend the digit run. -/
theorem readIntNum_intChars (n : Int) {rest : List Char} (hr : digitStop rest = true) :
    readIntNum (intChars n ++ rest) = some (n, rest) := by
  obtain ⟨d, ds, hnd⟩ := List.exists_cons_of_ne_nil (natDigits_ne_nil n.natAbs)
  have hdig := natDigits_all_digits n.natAbs
  have hrun : readDigits (natDigits n.natAbs ++ rest) = (natDigits n.natAbs, rest) :=
    readDigits_run _ hdig hr
  have hlead : ¬(d = '0' ∧ ds ≠ []) := by
    rintro ⟨rfl, hds⟩
    by_cases h0 : n.natAbs = 0
    · rw [h0] at hnd
      have : natDigits 0 = ['0'] := by decide
      rw [this] at hnd
      exact hds (List.cons.inj hnd).2.symm
    · exact natDigits_head_ne_zero n.natAbs h0 _ ds hnd rfl
  have hval : digitsVal (d :: ds) = n.natAbs := by
    rw [← hnd]; exact digitsVal_natDigits _
  by_cases hneg : n < 0
  · rw [show intChars n ++ rest = '-' :: (d :: (ds ++ rest)) from by
      simp [intChars, hneg, hnd]]
    rw [hnd, List.cons_append] at hrun
    simp only [readIntNum, List.head?_cons, List.tail_cons]
    simp [hrun, hlead, hval]
    rw [abs_of_neg hneg, neg_neg]
  · have hdm : d ≠ '-' := no_digit_is_minus (hdig d (hnd ▸ List.mem_cons_self d ds))
    rw [show intChars n ++ rest = d :: (ds ++ rest) from by simp [intChars, hneg, hnd]]
    rw [hnd, List.cons_append] at hrun
    simp only [readIntNum, List.head?_cons, List.tail_cons]
    simp [hdm, hrun, hlead, hval]
    omega

/-! ### Round-trip: strings -/

theorem hexNib_hexDigitCh {k : Nat} (h : k < 16) : hexNib (hexDigitCh k) = some k := by
  interval_cases k <;> decide

set_option maxHeartbeats 1600000 in
theorem readStrBody_esc (c : Char) (rest : List Char) :
    readStrBody (escSeq c ++ rest) = (readStrBody rest).map (fun r => (c :: r.1, r.2)) := by
  by_cases h1 : c = '"'
  · subst h1; rfl
  by_cases h2 : c = '\\'
  · subst h2; rfl
  by_cases h3 : c = '\x08'
  · subst h3; rfl
  by_cases h4 : c = '\t'
  · subst h4; rfl
  by_cases h5 : c = '\n'
  · subst h5; rfl
  by_cases h6 : c = '\x0c'
  · subst h6; rfl
  by_cases h7 : c = '\r'
  · subst h7; rfl
  by_cases h8 : c.toNat < 32
  · have hdiv : c.toNat / 16 < 16 := by omega
    have hmod : c.toNat % 16 < 16 := Nat.mod_lt _ (by omega)
    simp only [escSeq, if_neg h1, if_neg h2, if_neg h3, if_neg h4, if_neg h5, if_neg h6,
      if_neg h7, if_pos h8, List.cons_append, List.nil_append]
    simp only [readStrBody, hexNib_hexDigitCh hdiv, hexNib_hexDigitCh hmod,
      show hexNib '0' = some 0 from rfl]
    have harith : ((0 * 16 + 0) * 16 + c.toNat / 16) * 16 + c.toNat % 16 = c.toNat := by
      omega
    rw [harith, Char.ofNat_toNat]
  · simp only [escSeq, if_neg h1, if_neg h2, if_neg h3, if_neg h4, if_neg h5, if_neg h6,
      if_neg h7, if_neg h8, List.cons_append, List.nil_append]
    rw [readStrBody.eq_def]
    split
    · simp_all
    · simp_all
    · simp_all
    · rename_i c' cs' heq
      obtain ⟨rfl, rfl⟩ := (List.cons.inj heq).imp id id
      rw [if_neg h8]

theorem readStrBody_print (l : List Char) : ∀ rest : List Char,
    readStrBody (l.flatMap escSeq ++ '"' :: rest) = some (l, rest) := by
  induction l with
  | nil => intro rest; rfl
  | cons c t ih =>
    intro rest
    rw [List.flatMap_cons, List.append_assoc, readStrBody_esc, ih]
    rfl

/-! ### Round-trip: head characters and whitespace -/

theorem skipBlanks_no_ws {c : Char} (h : wsCh c = false) (cs : List Char) :
    skipBlanks (c :: cs) = c :: cs := by
  simp [skipBlanks, h]

theorem decDigit_ne {c x : Char} (h : decDigit c = true) (hx : decDigit x = false) :
    c ≠ x := by
  intro e; rw [e, hx] at h; exact Bool.false_ne_true h

theorem decDigit_facts {c : Char} (h : decDigit c = true) :
    wsCh c = false ∧ c ≠ ']' ∧ c ≠ '}' ∧ c ≠ ',' ∧ c ≠ 'n' ∧ c ≠ 't' ∧ c ≠ 'f' ∧
      c ≠ '"' ∧ c ≠ '[' ∧ c ≠ '{' ∧ c ≠ '-' := by
  refine ⟨?_, decDigit_ne h (by decide), decDigit_ne h (by decide),
    decDigit_ne h (by decide), decDigit_ne h (by decide), decDigit_ne h (by decide),
    decDigit_ne h (by decide), decDigit_ne h (by decide), decDigit_ne h (by decide),
    decDigit_ne h (by decide), decDigit_ne h (by decide)⟩
  have w1 := decDigit_ne h (show decDigit ' ' = false by decide)
  have w2 := decDigit_ne h (show decDigit '\t' = false by decide)
  have w3 := decDigit_ne h (show decDigit '\n' = false by decide)
  have w4 := decDigit_ne h (show decDigit '\r' = false by decide)
  simp [wsCh, w1, w2, w3, w4]

/-- Every printed value starts with a character that is not whitespace and not
a closing delimiter, so `skipBlanks` leaves printed output alone and the
parser's bracket branches see a nonempty element. -/
theorem printVal_head (v : JSValue) :
    ∃ c t, printVal v = c :: t ∧ wsCh c = false ∧ c ≠ ']' ∧ c ≠ '}' := by
  cases v with
  | num n =>
    by_cases hneg : n < 0
    · refine ⟨'-', natDigits n.natAbs, ?_, ?_, ?_, ?_⟩
      · simp [printVal, intChars, hneg]
      all_goals decide
    · obtain ⟨d, ds, hnd⟩ := List.exists_cons_of_ne_nil (natDigits_ne_nil n.natAbs)
      have hd : decDigit d = true :=
        natDigits_all_digits n.natAbs d (hnd ▸ List.mem_cons_self d ds)
      obtain ⟨hws, hcl, hcr, -⟩ := decDigit_facts hd
      refine ⟨d, ds, ?_, hws, hcl, hcr⟩
      simp [printVal, intChars, hneg, hnd]
  | bool b => cases b <;> (refine ⟨_, _, rfl, ?_, ?_, ?_⟩ <;> decide)
  | null => refine ⟨_, _, rfl, ?_, ?_, ?_⟩ <;> decide
  | str s => refine ⟨_, _, rfl, ?_, ?_, ?_⟩ <;> decide
  | arr l => refine ⟨_, _, rfl, ?_, ?_, ?_⟩ <;> decide
  | obj l => refine ⟨_, _, rfl, ?_, ?_, ?_⟩ <;> decide

theorem skipBlanks_printVal (v : JSValue) (x : List Char) :
    skipBlanks (printVal v ++ x) = printVal v ++ x := by
  obtain ⟨c, t, hv, hws, -, -⟩ := printVal_head v
  rw [hv, List.cons_append, skipBlanks_no_ws hws]

theorem printVal_ne_nil (v : JSValue) : printVal v ≠ [] := by
  obtain ⟨c, t, hv, -⟩ := printVal_head v
  simp [hv]

theorem printItemsRest_cons (v : JSValue) (vs : List JSValue) :
    printItemsRest (v :: vs) = ',' :: printItems (v :: vs) := rfl

theorem printPropsRest_cons (p : String × JSValue) (ps : List (String × JSValue)) :
    printPropsRest (p :: ps) = ',' :: printProps (p :: ps) := by
  obtain ⟨k, v⟩ := p; rfl

theorem printItems_cons (v : JSValue) (vs : List JSValue) :
    printItems (v :: vs) = printVal v ++ printItemsRest vs := rfl

theorem printProps_cons (k : String) (v : JSValue) (ps : List (String × JSValue)) :
    printProps ((k, v) :: ps) = printStrLit k ++ ':' :: (printVal v ++ printPropsRest ps) := rfl

/-! ### Round-trip: the parser inverts the printer -/

theorem digitStop_of_head {c : Char} (h : decDigit c = false) (r : List Char) :
    digitStop (c :: r) = true := by simp [digitStop, h]

theorem stringMk_data (s : String) : String.mk s.data = s := rfl

/-- One-step unfolding of `parseVal` on a `[`-headed input (definitional). -/
theorem parseVal_lbracket (fuel : Nat) (y : List Char) :
    parseVal (fuel + 1) ('[' :: y)
      = (match skipBlanks y with
         | [] => none
         | c :: r2 =>
           if c = ']' then some (.arr [], r2)
           else
             match parseItems fuel (c :: r2) with
             | some (vs, r3) => some (.arr vs, r3)
             | none => none) := rfl

/-- One-step unfolding of `parseVal` on a `{`-headed input (definitional). -/
theorem parseVal_lbrace (fuel : Nat) (y : List Char) :
    parseVal (fuel + 1) ('{' :: y)
      = (match skipBlanks y with
         | [] => none
         | c :: r2 =>
           if c = '}' then some (.obj [], r2)
           else
             match parseProps fuel (c :: r2) with
             | some (ps, r3) => some (.obj ps, r3)
             | none => none) := rfl

/-- One-step unfolding of `parseItems` at successor fuel (definitional). -/
theorem parseItems_step (fuel : Nat) (cs : List Char) :
    parseItems (fuel + 1) cs
      = (match parseVal fuel cs with
         | none => none
         | some (v, r) =>
           match skipBlanks r with
           | ',' :: r2 =>
             match parseItems fuel r2 with
             | some (vs, r3) => some (v :: vs, r3)
             | none => none
           | ']' :: r2 => some ([v], r2)
           | _ => none) := rfl

/-- One-step unfolding of `parseProps` at successor fuel (definitional). -/
theorem parseProps_step (fuel : Nat) (cs : List Char) :
    parseProps (fuel + 1) cs
      = (match skipBlanks cs with
         | '"' :: r =>
           match readStrBody r with
           | none => none
           | some (k, r1) =>
             match skipBlanks r1 with
             | ':' :: r2 =>
               match parseVal fuel r2 with
               | none => none
               | some (v, r3) =>
                 match skipBlanks r3 with
                 | ',' :: r4 =>
                   match parseProps fuel r4 with
                   | some (ps, r5) => some ((String.mk k, v) :: ps, r5)
                   | none => none
                 | '}' :: r4 => some ([(String.mk k, v)], r4)
                 | _ => none
             | _ => none
         | _ => none) := rfl

/-- A value whose input starts with a sign or digit dispatches to `readIntNum`. -/
theorem parseVal_numStep (fuel : Nat) (c : Char) (t : List Char)
    (hg : (decide (c = '-') || decDigit c) = true) :
    parseVal (fuel + 1) (c :: t)
      = (readIntNum (c :: t)).map (fun p => (JSValue.num p.1, p.2)) := by
  have hfacts : wsCh c = false ∧ c ≠ 'n' ∧ c ≠ 't' ∧ c ≠ 'f' ∧ c ≠ '"'
      ∧ c ≠ '[' ∧ c ≠ '{' := by
    have hg' : decide (c = '-') = true ∨ decDigit c = true := by
      cases hcm : decide (c = '-') with
      | true => exact Or.inl rfl
      | false =>
        right
        rw [hcm, Bool.false_or] at hg
        exact hg
    rcases hg' with h | h
    · have hc : c = '-' := of_decide_eq_true h
      subst hc
      refine ⟨?_, ?_, ?_, ?_, ?_, ?_, ?_⟩ <;> decide
    · obtain ⟨hws, -, -, -, e1, e2, e3, e4, e5, e6, -⟩ := decDigit_facts h
      exact ⟨hws, e1, e2, e3, e4, e5, e6⟩
  obtain ⟨hws, h1, h2, h3, h4, h5, h6⟩ := hfacts
  simp only [parseVal]
  rw [skipBlanks_no_ws hws]
  simp [h1, h2, h3, h4, h5, h6, hg]

mutual
theorem rt_val : ∀ (v : JSValue) (fuel : Nat) (rest : List Char),
    (printVal v).length < fuel → digitStop rest = true →
    parseVal fuel (printVal v ++ rest) = some (v, rest)
  | .null, fuel, rest, hf, _ => by
    cases fuel with
    | zero => simp [printVal, litNull] at hf
    | succ f => simp [printVal, litNull, parseVal, skipBlanks, wsCh]
  | .bool b, fuel, rest, hf, _ => by
    cases fuel with
    | zero => cases b <;> simp [printVal, litTrue, litFalse] at hf
    | succ f => cases b <;> simp [printVal, litTrue, litFalse, parseVal, skipBlanks, wsCh]
  | .num n, fuel, rest, hf, hr => by
    cases fuel with
    | zero => exact absurd hf (Nat.not_lt_zero _)
    | succ f =>
      by_cases hneg : n < 0
      · have harg : printVal (.num n) ++ rest = '-' :: (natDigits n.natAbs ++ rest) := by
          simp [printVal, intChars, hneg]
        rw [harg, parseVal_numStep f '-' _ (by decide), ← harg,
          show printVal (.num n) = intChars n from rfl, readIntNum_intChars n hr]
        rfl
      · obtain ⟨d, ds, hnd⟩ := List.exists_cons_of_ne_nil (natDigits_ne_nil n.natAbs)
        have hd : decDigit d = true :=
          natDigits_all_digits n.natAbs d (hnd ▸ List.mem_cons_self d ds)
        obtain ⟨hws, -, -, -, e1, e2, e3, e4, e5, e6, -⟩ := decDigit_facts hd
        have harg : printVal (.num n) ++ rest = d :: (ds ++ rest) := by
          simp [printVal, intChars, hneg, hnd]
        rw [harg, parseVal_numStep f d _ (by simp [hd]), ← harg,
          show printVal (.num n) = intChars n from rfl, readIntNum_intChars n hr]
        rfl
  | .str s, fuel, rest, hf, _ => by
    cases fuel with
    | zero => exact absurd hf (Nat.not_lt_zero _)
    | succ f =>
      have harg : printVal (.str s) ++ rest
          = '"' :: (s.data.flatMap escSeq ++ '"' :: rest) := by
        simp [printVal, printStrLit]
      rw [harg]
      simp [parseVal, skipBlanks, wsCh, readStrBody_print, stringMk_data]
  | .arr [], fuel, rest, hf, _ => by
    cases fuel with
    | zero => exact absurd hf (Nat.not_lt_zero _)
    | succ f =>
      have harg : printVal (.arr []) ++ rest = '[' :: (']' :: rest) := by
        simp [printVal, printItems]
      rw [harg, parseVal_lbracket]
      rw [skipBlanks_no_ws (by decide)]
      simp
  | .arr (v :: vs), fuel, rest, hf, _ => by
    cases fuel with
    | zero => exact absurd hf (Nat.not_lt_zero _)
    | succ f =>
      obtain ⟨c, t, hv, hws, hbr, -⟩ := printVal_head v
      have harg : printVal (.arr (v :: vs)) ++ rest
          = '[' :: (printItems (v :: vs) ++ ']' :: rest) := by
        simp [printVal]
      have hitems : printItems (v :: vs) ++ ']' :: rest
          = c :: (t ++ (printItemsRest vs ++ ']' :: rest)) := by
        simp [printItems_cons, hv]
      have hfi : (printItems (v :: vs)).length + 1 < f := by
        have : (printVal (.arr (v :: vs))).length = (printItems (v :: vs)).length + 2 := by
          simp [printVal]
        omega
      have hkey := rt_items v vs f rest hfi
      rw [harg, parseVal_lbracket, hitems, skipBlanks_no_ws hws]
      simp only [if_neg hbr]
      rw [← hitems, hkey]
  | .obj [], fuel, rest, hf, _ => by
    cases fuel with
    | zero => exact absurd hf (Nat.not_lt_zero _)
    | succ f =>
      have harg : printVal (.obj []) ++ rest = '{' :: ('}' :: rest) := by
        simp [printVal, printProps]
      rw [harg, parseVal_lbrace]
      rw [skipBlanks_no_ws (by decide)]
      simp
  | .obj ((k, v) :: ps), fuel, rest, hf, _ => by
    cases fuel with
    | zero => exact absurd hf (Nat.not_lt_zero _)
    | succ f =>
      have harg : printVal (.obj ((k, v) :: ps)) ++ rest
          = '{' :: (printProps ((k, v) :: ps) ++ '}' :: rest) := by
        simp [printVal]
      have hprops : printProps ((k, v) :: ps) ++ '}' :: rest
          = '"' :: (k.data.flatMap escSeq
              ++ ('"' :: (':' :: (printVal v ++ (printPropsRest ps ++ '}' :: rest))))) := by
        simp [printProps_cons, printStrLit]
      have hfp : (printProps ((k, v) :: ps)).length + 1 < f := by
        have : (printVal (.obj ((k, v) :: ps))).length
            = (printProps ((k, v) :: ps)).length + 2 := by
          simp [printVal]
        omega
      have hkey := rt_props (k, v) ps f rest hfp
      rw [harg, parseVal_lbrace, hprops,
        skipBlanks_no_ws (show wsCh '"' = false by decide)]
      simp only [if_neg (show ('"' : Char) ≠ '}' by decide)]
      rw [← hprops, hkey]
  termination_by v _ _ _ _ => sizeOf v

theorem rt_items : ∀ (v : JSValue) (vs : List JSValue) (fuel : Nat) (rest : List Char),
    (printItems (v :: vs)).length + 1 < fuel →
    parseItems fuel (printItems (v :: vs) ++ ']' :: rest) = some (v :: vs, rest)
  | v, [], fuel, rest, hf => by
    cases fuel with
    | zero => omega
    | succ f =>
      have harg : printItems (v :: []) ++ ']' :: rest = printVal v ++ ']' :: rest := by
        simp [printItems_cons, printItemsRest]
      have hfv : (printVal v).length < f := by
        have : (printItems (v :: [])).length = (printVal v).length := by
          simp [printItems_cons, printItemsRest]
        omega
      have hv := rt_val v f (']' :: rest) hfv (digitStop_of_head (by decide) _)
      rw [harg, parseItems_step, hv]
      simp only [skipBlanks_no_ws (show wsCh ']' = false by decide)]
  | v, w :: ws, fuel, rest, hf => by
    cases fuel with
    | zero => omega
    | succ f =>
      obtain ⟨c, t, hv0, -, -, -⟩ := printVal_head v
      have harg : printItems (v :: w :: ws) ++ ']' :: rest
          = printVal v ++ (',' :: (printItems (w :: ws) ++ ']' :: rest)) := by
        simp [printItems_cons, printItemsRest_cons]
      have hlen : (printItems (v :: w :: ws)).length
          = (printVal v).length + 1 + (printItems (w :: ws)).length := by
        rw [printItems_cons, printItemsRest_cons]
        simp only [List.length_append, List.length_cons]
        omega
      have hvnn : (printVal v).length ≥ 1 := by
        rw [hv0]; simp
      have hfv : (printVal v).length < f := by omega
      have hfw : (printItems (w :: ws)).length + 1 < f := by omega
      have hv := rt_val v f (',' :: (printItems (w :: ws) ++ ']' :: rest)) hfv
        (digitStop_of_head (by decide) _)
      have hrec := rt_items w ws f rest hfw
      rw [harg, parseItems_step, hv]
      simp only [skipBlanks_no_ws (show wsCh ',' = false by decide), hrec]
  termination_by v vs _ _ _ => sizeOf v + sizeOf vs

theorem rt_props : ∀ (p : String × JSValue) (ps : List (String × JSValue))
    (fuel : Nat) (rest : List Char),
    (printProps (p :: ps)).length + 1 < fuel →
    parseProps fuel (printProps (p :: ps) ++ '}' :: rest) = some (p :: ps, rest)
  | (k, v), [], fuel, rest, hf => by
    cases fuel with
    | zero => omega
    | succ f =>
      have harg : printProps ((k, v) :: []) ++ '}' :: rest
          = '"' :: (k.data.flatMap escSeq
              ++ ('"' :: (':' :: (printVal v ++ '}' :: rest)))) := by
        simp [printProps_cons, printPropsRest, printStrLit]
      have hfv : (printVal v).length < f := by
        have hl1 : (printProps ((k, v) :: [])).length
            = (printStrLit k).length + 1 + (printVal v).length := by
          rw [printProps_cons]
          simp only [printPropsRest, List.append_nil, List.length_append, List.length_cons]
          omega
        omega
      have hv := rt_val v f ('}' :: rest) hfv (digitStop_of_head (by decide) _)
      rw [harg, parseProps_step, skipBlanks_no_ws (show wsCh '"' = false by decide)]
      simp only [readStrBody_print, skipBlanks_no_ws (show wsCh ':' = false by decide), hv,
        skipBlanks_no_ws (show wsCh '}' = false by decide), stringMk_data]
  | (k, v), q :: qs, fuel, rest, hf => by
    cases fuel with
    | zero => omega
    | succ f =>
      have harg : printProps ((k, v) :: q :: qs) ++ '}' :: rest
          = '"' :: (k.data.flatMap escSeq
              ++ ('"' :: (':' :: (printVal v
                ++ (',' :: (printProps (q :: qs) ++ '}' :: rest)))))) := by
        simp [printProps_cons, printPropsRest_cons, printStrLit]
      have hlen : (printProps ((k, v) :: q :: qs)).length
          = (printStrLit k).length + 1 + (printVal v).length + 1
            + (printProps (q :: qs)).length := by
        rw [printProps_cons, printPropsRest_cons]
        simp only [List.length_append, List.length_cons]
        omega
      have h2 : (printStrLit k).length ≥ 2 := by
        simp only [printStrLit, List.length_cons, List.length_append]
        omega
      have hfv : (printVal v).length < f := by omega
      have hfq : (printProps (q :: qs)).length + 1 < f := by omega
      have hv := rt_val v f (',' :: (printProps (q :: qs) ++ '}' :: rest)) hfv
        (digitStop_of_head (by decide) _)
      have hrec := rt_props q qs f rest hfq
      rw [harg, parseProps_step, skipBlanks_no_ws (show wsCh '"' = false by decide)]
      simp only [readStrBody_print, skipBlanks_no_ws (show wsCh ':' = false by decide), hv,
        skipBlanks_no_ws (show wsCh ',' = false by decide), stringMk_data, hrec]
  termination_by p ps _ _ _ => sizeOf p + sizeOf ps
end

/-- **Codec round-trip**: the model of `JSON.parse` inverts the model of
`JSON.stringify` on every value. -/
theorem jsonParse_stringify (v : JSValue) : jsonParse (jsonStringify v) = some v := by
  have hv := rt_val v ((printVal v).length + 1) [] (by omega) rfl
  rw [List.append_nil] at hv
  simp only [jsonParse, jsonStringify, hv, skipBlanks]
  rfl

example : jsonParse "null" = some .null := by decide
example : jsonParse "5" = some (.num 5) := by decide
example : jsonParse "\"hi\"" = some (.str "hi") := by decide
example : jsonParse "oops" = none := by decide
example : jsonParse "\x7b\"a\":1\x7d" = some (.obj [("a", .num 1)]) := by decide
example : jsonStringify (.obj [("a", .num 1)]) = "\x7b\"a\":1\x7d" := by decide

/-! ### JS semantics helpers

The coercions the source relies on: `typeof`, truthiness (`x || null`
defaulting), string conversion (property-key coercion), property access on
non-null values, and strict equality on window references. -/

/-- The JS `typeof` operator on the value universe (`typeof null` is
`"object"`, arrays are objects). -/
def jsTypeof : JSValue → String
  | .null => "object"
  | .bool _ => "boolean"
  | .num _ => "number"
  | .str _ => "string"
  | .arr _ => "object"
  | .obj _ => "object"

/-- JS truthiness: `null`, `false`, `0` and `""` are falsy. -/
def jsTruthy : JSValue → Bool
  | .null => false
  | .bool b => b
  | .num n => n != 0
  | .str s => s ≠ ""
  | .arr _ => true
  | .obj _ => true

/-- The `x || null` idiom applied to an optional argument (`none` = absent /
`undefined`): a falsy value collapses to `null`. -/
def jsOrNull : Option JSValue → JSValue
  | none => .null
  | some v => if jsTruthy v then v else .null

mutual
/-- `String(v)`: the string conversion used by property-key coercion
(`this._callbacks[type]`).  Arrays convert via `Array.prototype.join(",")`
with `null` elements as empty strings; plain objects to `"[object Object]"`. -/
def jsToString : JSValue → String
  | .null => "null"
  | .bool true => "true"
  | .bool false => "false"
  | .num n => String.mk (intChars n)
  | .str s => s
  | .arr l => jsJoin l
  | .obj _ => "[object Object]"

def jsJoin : List JSValue → String
  | [] => ""
  | v :: vs => (if v = JSValue.null then "" else jsToString v) ++ jsJoinRest vs

def jsJoinRest : List JSValue → String
  | [] => ""
  | v :: vs => "," ++ (if v = JSValue.null then "" else jsToString v) ++ jsJoinRest vs
end

/-- Property-key coercion of a value that may be `undefined` (`none`):
`String(undefined)` is `"undefined"`, so `this._callbacks[undefined]` reads
the key `"undefined"`. -/
def jsKey : Option JSValue → String
  | none => "undefined"
  | some v => jsToString v

/-- Object field lookup with the *last* binding winning, matching the JS
object `JSON.parse` builds when a payload repeats a key. -/
def lookupLast : List (String × JSValue) → String → Option JSValue
  | [], _ => none
  | (k', v) :: fs, k =>
    match lookupLast fs k with
    | some r => some r
    | none => if k' = k then some v else none

/-- Canonical array-index reading of a property key: a digit run with no
leading zero (`"0"`, `"7"`, `"12"`; not `"01"`). -/
def strIndex? (k : String) : Option Nat :=
  match k.data with
  | [] => none
  | d :: ds =>
    if decDigit d && (decide (d ≠ '0') || decide (ds = [])) && ds.all decDigit then
      some (digitsVal (d :: ds))
    else none

/-- Data-property access `v[k]` on a non-null value; `none` is JS `undefined`.
Objects look up the key; arrays and strings expose `length` and their
canonical indices (string indexing yields one-character strings; Lean counts
characters where JS counts UTF-16 units — the difference only shows beyond the
basic plane); number and boolean primitives have no own data properties.
Method properties (functions) are outside the value universe; the source only
reads `type`, `data` and `connectionID`.  Never applied to `null`: `null[k]`
throws a `TypeError`, which the call sites model as an error. -/
def getProp (v : JSValue) (k : String) : Option JSValue :=
  match v with
  | .obj fs => lookupLast fs k
  | .arr l =>
    if k = "length" then some (.num l.length)
    else
      match strIndex? k with
      | some i => l.get? i
      | none => none
  | .str s =>
    if k = "length" then some (.num s.length)
    else
      match strIndex? k with
      | some i => (s.data.get? i).map (fun c => .str (String.mk [c]))
      | none => none
  | _ => none

/-- A window-reference value: `undefined`, `null`, or a window identified by
an opaque id (reference identity). -/
inductive JSRef where
  | undef
  | nullRef
  | window (id : Nat)
deriving Repr, DecidableEq

/-- Strict equality `===` on window references: reference identity;
`undefined === null` is false. -/
def jsRefEq : JSRef → JSRef → Bool
  | .undef, .undef => true
  | .nullRef, .nullRef => true
  | .window i, .window j => i == j
  | _, _ => false

/-! ### The PMS model

State and operations of `src/PMS.js`.  Callbacks and context objects are
opaque identities (`Nat`); each callback invocation performed by `_fire` is
appended to an output list of `Invocation`s, which is the observable behaviour
of a dispatch. -/

/-- A subscription record as pushed by `on` (lines 150-154): exactly the
fields `callback`, `context`, `once` — note there is *no* `type` field. -/
structure SubRec where
  callback : Nat
  context : Option Nat
  once : Bool
deriving Repr, DecidableEq

/-- `InternalEvent` (lines 284-288): `type` is stored as passed (possibly
`undefined`), `data` has already been defaulted to `null` by `trigger`,
`rawEvent` is passed through unchanged (possibly `undefined`). -/
structure Event where
  type : Option JSValue
  data : JSValue
  rawEvent : Option JSValue
deriving Repr, DecidableEq

/-- One callback invocation: which callback was called, with which `this`
binding, and with which event. -/
structure Invocation where
  callback : Nat
  context : Option Nat
  event : Event
deriving Repr, DecidableEq

/-- The mutable state of a `PMS` instance: the three settings written by
`set` and the `_callbacks` registry (a key that was never written maps to
`[]`, observably the same as an absent key: `if (callbacks)` accepts an empty
array and firing it is a no-op).  `connectionID` is `none` or a nonempty
string: `set`, its only writer, coerces falsy values to `null`, so the
truthiness test `!this._connectionID` is exactly `connectionID = none`. -/
structure PMSState where
  targetWindow : JSRef
  targetOrigin : String
  connectionID : Option String
  callbacks : String → List SubRec

/-- A settings object for the constructor / `set`: `none` marks an absent
property (`undefined`). -/
structure Settings where
  targetWindow : JSRef
  connectionID : Option String
  targetOrigin : Option String

/-- `PMS.prototype.set` (lines 42-47): `this._targetWindow =
sets.targetWindow`, `this._targetOrigin = sets.targetOrigin || '*'`,
`this._connectionID = sets.connectionID || null` — falsy (absent or empty)
strings collapse to the defaults. -/
def pmsSet (sets : Settings) (st : PMSState) : PMSState :=
  { st with
    targetWindow := sets.targetWindow
    targetOrigin :=
      match sets.targetOrigin with
      | some s => if s = "" then "*" else s
      | none => "*"
    connectionID :=
      match sets.connectionID with
      | some s => if s = "" then none else some s
      | none => none }

/-- A character `_splitRegExp = /[^,\s]+/g` treats as a separator: a comma or
whitespace (the JS `\s` class also has Unicode members, which the claims never
exercise). -/
def tokenSep (c : Char) : Bool :=
  c = ',' || c = ' ' || c = '\t' || c = '\n' || c = '\r' || c = '\x0b' || c = '\x0c'

def splitGo : List Char → List Char → List String
  | [], cur => if cur = [] then [] else [String.mk cur.reverse]
  | c :: cs, cur =>
    if tokenSep c then
      if cur = [] then splitGo cs []
      else String.mk cur.reverse :: splitGo cs []
    else splitGo cs (c :: cur)

/-- The token list `while ((typeArr = this._splitRegExp.exec(type)))`
produces: the maximal runs of non-separator characters, left to right. -/
def splitTokens (s : String) : List String := splitGo s.data []

/-- `PMS.prototype.on` (lines 140-156): for each token of `type`, pushes one
record `{callback, context, once}` onto that token's array (`context = context
|| null` is the `Option` argument; a missing key starts from `[]`). -/
def pmsOn (type : String) (callback : Nat) (context : Option Nat) (once : Bool)
    (st : PMSState) : PMSState :=
  (splitTokens type).foldl
    (fun s tok =>
      { s with
        callbacks := fun k =>
          if k = tok then s.callbacks k ++ [⟨callback, context, once⟩]
          else s.callbacks k })
    st

/-- `PMS.prototype.once` (lines 165-167): `this.on(type, callback, context, true)`. -/
def pmsOnce (type : String) (callback : Nat) (context : Option Nat)
    (st : PMSState) : PMSState :=
  pmsOn type callback context true st

/-- The strict equality `callback === clbk` tested by `_offCallback` (line
268): `clbk` ranges over the *subscription-record objects* stored in the
array, while `callback` is a function value, so the two operands are always
distinct heap values of different kinds and the comparison is constantly
false. -/
def funEqRec (_callback : Nat) (_clbk : SubRec) : Bool := false

/-- `callbacks.some(function(clbk, i){ return !!(callback === clbk &&
callbacks.splice(i, 1)); })`: remove the first element strictly equal to
`callback` (there never is one, by `funEqRec`). -/
def spliceFirstMatch (callback : Nat) : List SubRec → List SubRec
  | [] => []
  | r :: rs => if funEqRec callback r then rs else r :: spliceFirstMatch callback rs

/-- `PMS.prototype._offCallback` (lines 263-271). -/
def offCallback (type : String) (callback : Nat) (st : PMSState) : PMSState :=
  { st with
    callbacks := fun k =>
      if k = type then spliceFirstMatch callback (st.callbacks k)
      else st.callbacks k }

/-- `PMS.prototype._fire` (lines 203-217): `Array.prototype.forEach` over the
live callbacks array at `key`, with the iteration count captured at loop
start (`rem`), skipping indices that no longer exist; each record's callback
is invoked with the event (recorded as an `Invocation`), and a `once` record
triggers `_offCallback(item.type, item.callback)` — the records pushed by
`on` have no `type` field, so `item.type` is `undefined` and the removal key
is the string `"undefined"`. -/
def fireLoop (key : String) (e : Event) :
    Nat → Nat → PMSState → List Invocation → PMSState × List Invocation
  | _, 0, st, out => (st, out)
  | i, rem + 1, st, out =>
    let arr := st.callbacks key
    if h : i < arr.length then
      let item := arr.get ⟨i, h⟩
      let out' := out ++ [⟨item.callback, item.context, e⟩]
      let st' := if item.once then offCallback "undefined" item.callback st else st
      fireLoop key e (i + 1) rem st' out'
    else fireLoop key e (i + 1) rem st out

/-- `PMS.prototype.trigger` (lines 176-194): `data = data || null`; the
lookup key is the property-key coercion of `type` (the whole string — trigger
never splits a type list); fires the array at that key, then the array at
`"all"`.  An absent key is `[]`, which fires nothing, matching the
`if (callbacks)` / `if (all)` guards. -/
def trigger (type data rawEvent : Option JSValue) (st : PMSState) :
    PMSState × List Invocation :=
  let d := jsOrNull data
  let key := jsKey type
  let e : Event := ⟨type, d, rawEvent⟩
  let r1 := fireLoop key e 0 (st.callbacks key).length st []
  fireLoop "all" e 0 (r1.1.callbacks "all").length r1.1 r1.2

/-- The `connectionID` field of an outgoing envelope (line 62): the configured
string or `null`. -/
def cidValue : Option String → JSValue
  | none => .null
  | some s => .str s

/-- `PMS.prototype.send` (lines 55-70): `data = data || null`; when `typeof
data === 'object'` the envelope `{connectionID, data, type}` is serialised and
handed to `targetWindow.postMessage` (the `ok` result is exactly the posted
string); otherwise a `TypeError` is thrown (`error`) and nothing is posted.
The `type` argument is any value (the API documents a string); `send` never
inspects it. -/
def send (type : JSValue) (data : Option JSValue) (st : PMSState) :
    Except Unit String :=
  let d := jsOrNull data
  if jsTypeof d = "object" then
    Except.ok (jsonStringify
      (.obj [("connectionID", cidValue st.connectionID), ("data", d), ("type", type)]))
  else Except.error ()

/-- `PMS.prototype._processMessage` (lines 104-121).  The try block parses and
reads `parsed.type` / `parsed.data`; on any throw the catch block substitutes
`rawEvent = postJSON`, `type = 'message'`, `data = null`.  The filter
condition `!this._connectionID || this._connectionID === parsed.connectionID`
then runs *outside* the try: when a connectionID is set and `parsed` is
`undefined` (parse threw) or `null` (parse returned null), the
`parsed.connectionID` access throws a `TypeError` that escapes
(`Except.error`). -/
def processMessage (postJSON : String) (st : PMSState) :
    Except Unit (PMSState × List Invocation) :=
  match jsonParse postJSON with
  | none =>
    match st.connectionID with
    | none =>
      Except.ok (trigger (some (.str "message")) (some .null) (some (.str postJSON)) st)
    | some _ => Except.error ()
  | some .null =>
    match st.connectionID with
    | none =>
      Except.ok (trigger (some (.str "message")) (some .null) (some (.str postJSON)) st)
    | some _ => Except.error ()
  | some parsed =>
    let ty := getProp parsed "type"
    let da := getProp parsed "data"
    match st.connectionID with
    | none => Except.ok (trigger ty da (some parsed) st)
    | some c =>
      if getProp parsed "connectionID" = some (.str c) then
        Except.ok (trigger ty da (some parsed) st)
      else Except.ok (st, [])

/-- The inbound message event the transport delivers: the sender identity and
the payload string. -/
structure MessageEvent where
  source : JSRef
  data : String
deriving Repr

/-- `PMS.prototype._receive` (lines 89-93): process the payload only when
`e.source === this._targetWindow`. -/
def receive (e : MessageEvent) (st : PMSState) : Except Unit (PMSState × List Invocation) :=
  if jsRefEq e.source st.targetWindow then processMessage e.data st
  else Except.ok (st, [])

/-- The envelope construction and serialisation performed by `send`
(lines 60-66) under a configured connectionID `id`. -/
def encodeEnvelope (id : String) (type : String) (data : JSValue) : String :=
  jsonStringify (.obj [("connectionID", .str id), ("data", data), ("type", .str type)])

/-- The structured-decode fragment of `_processMessage` (lines 107-111):
parse, then read `connectionID`, `type` and `data`; `none` when `JSON.parse`
throws, or when it returns `null` so that every property access throws. -/
def decodeEnvelope (s : String) :
    Option (Option JSValue × Option JSValue × Option JSValue) :=
  match jsonParse s with
  | none => none
  | some .null => none
  | some p => some (getProp p "connectionID", getProp p "type", getProp p "data")

/-! ### Dispatch lemmas

`_offCallback` never removes anything (`funEqRec` compares a function with a
record object), so a `_fire` pass leaves the state untouched and invokes the
captured array's records in order; `trigger` therefore fires exactly the
type-key list followed by the `"all"` list. -/

theorem spliceFirstMatch_id (callback : Nat) : ∀ l : List SubRec,
    spliceFirstMatch callback l = l
  | [] => rfl
  | r :: rs => by
    simp only [spliceFirstMatch, funEqRec, Bool.false_eq_true, if_false,
      spliceFirstMatch_id callback rs]

theorem offCallback_id (type : String) (callback : Nat) (st : PMSState) :
    offCallback type callback st = st := by
  cases st with
  | mk tw torig cid cbs =>
    simp only [offCallback]
    congr 1
    funext k
    by_cases hk : k = type <;> simp [hk, spliceFirstMatch_id]

theorem fireLoop_spec (key : String) (e : Event) :
    ∀ (rem i : Nat) (st : PMSState) (out : List Invocation),
      fireLoop key e i rem st out
        = (st, out ++ (((st.callbacks key).drop i).take rem).map
            (fun r => ⟨r.callback, r.context, e⟩)) := by
  intro rem
  induction rem with
  | zero => intro i st out; simp [fireLoop]
  | succ rem ih =>
    intro i st out
    simp only [fireLoop]
    by_cases h : i < (st.callbacks key).length
    · rw [dif_pos h]
      have honce : (if ((st.callbacks key).get ⟨i, h⟩).once then
          offCallback "undefined" ((st.callbacks key).get ⟨i, h⟩).callback st else st) = st := by
        split <;> simp [offCallback_id]
      rw [honce, ih]
      rw [List.append_assoc]
      congr 1
      have hdrop : (st.callbacks key).drop i
          = (st.callbacks key).get ⟨i, h⟩ :: (st.callbacks key).drop (i + 1) := by
        rw [List.drop_eq_getElem_cons h]
        rfl
      rw [hdrop, List.take_succ_cons, List.map_cons]
      rfl
    · rw [dif_neg h, ih]
      have h1 : (st.callbacks key).drop i = [] :=
        List.drop_eq_nil_of_le (by omega)
      have h2 : (st.callbacks key).drop (i + 1) = [] :=
        List.drop_eq_nil_of_le (by omega)
      rw [h1, h2]
      simp [List.take_nil]

/-- What one `trigger` call does: state unchanged, and the invocation list is
the type key's records followed by the wildcard records, each invoked with the
same fresh event. -/
theorem trigger_spec (type data rawEvent : Option JSValue) (st : PMSState) :
    trigger type data rawEvent st
      = (st,
          (st.callbacks (jsKey type)).map
            (fun r => ⟨r.callback, r.context, ⟨type, jsOrNull data, rawEvent⟩⟩)
          ++ (st.callbacks "all").map
            (fun r => ⟨r.callback, r.context, ⟨type, jsOrNull data, rawEvent⟩⟩)) := by
  simp only [trigger, fireLoop_spec, List.drop_zero, List.take_length, List.nil_append]

/-! ### Fixtures for concrete evaluations -/

instance {e a : Type} [DecidableEq e] [DecidableEq a] : DecidableEq (Except e a) :=
  fun x y =>
    match x, y with
    | .ok v, .ok w => decidable_of_iff (v = w) (by simp)
    | .error v, .error w => decidable_of_iff (v = w) (by simp)
    | .ok _, .error _ => isFalse (by simp)
    | .error _, .ok _ => isFalse (by simp)

/-- A freshly constructed instance: target window `0`, default origin, no
connectionID, empty registry. -/
def stEmpty : PMSState := ⟨.window 0, "*", none, fun _ => []⟩

/-- connectionID `"svc1"` configured and one subscriber on the raw fallback
type `"message"`. -/
def stSvc1Msg : PMSState :=
  pmsOn "message" 5 none false ⟨.window 0, "*", some "svc1", fun _ => []⟩

/-- connectionID `"svc1"` configured and one wildcard (`"all"`) observer. -/
def stObs : PMSState :=
  ⟨.window 0, "*", some "svc1", fun k => if k = "all" then [⟨9, none, false⟩] else []⟩

/-- Target window `0`, connectionID `"svc1"`, one subscriber on `"t"`. -/
def stPeer : PMSState :=
  pmsOn "t" 4 none false (pmsSet ⟨.window 0, some "svc1", none⟩ stEmpty)

/-- Property access on a value that is neither `null` nor an object yields
`undefined` for every key that is not `length` and not a canonical index. -/
theorem getProp_nonobject {v : JSValue} {k : String} (hk1 : k ≠ "length")
    (hk2 : strIndex? k = none) (hno : ∀ fs, v ≠ JSValue.obj fs) :
    getProp v k = none := by
  cases v with
  | obj fs => exact absurd rfl (hno fs)
  | arr l => simp [getProp, hk1, hk2]
  | str s => simp [getProp, hk1, hk2]
  | null => rfl
  | bool b => rfl
  | num n => rfl

/-! ### The claims -/

/-- Claim C1 (code bug), the code evaluated at the failing input: after
`once("t", cb)`, triggering `"t"` twice invokes the callback on *both*
triggers — twice in total — and the subscription record is still registered
afterwards.  The once-removal is dead code: `_fire` passes `item.type`, which
is `undefined` because the records built by `on` carry no `type` field, and
`_offCallback` compares the function against the whole record object, which
never matches.  The method's own documentation ("Binds callback to the event
only once") promises a single total invocation with removal. -/
theorem once_subscription_fires_twice :
    (trigger (some (.str "t")) none none (pmsOnce "t" 7 none stEmpty)).2
        = [⟨7, none, ⟨some (.str "t"), .null, none⟩⟩] ∧
    (trigger (some (.str "t")) none none
        (trigger (some (.str "t")) none none (pmsOnce "t" 7 none stEmpty)).1).2
        = [⟨7, none, ⟨some (.str "t"), .null, none⟩⟩] ∧
    (trigger (some (.str "t")) none none
        (trigger (some (.str "t")) none none (pmsOnce "t" 7 none stEmpty)).1).1.callbacks "t"
        = [⟨7, none, true⟩] := by
  decide

/-- Claim C2 (code bug), the code evaluated at the failing input: `trigger`
uses its whole argument as a single lookup key and never applies
`_splitRegExp`, so with a subscriber registered under `"hello"`,
`trigger("hello, hi")` invokes nothing, while `trigger("hello")` invokes the
subscriber; the split the README documents for `trigger` ("You can provide
several types divided by spaces or commas") would produce the tokens
`["hello", "hi"]`. -/
theorem trigger_does_not_split :
    (trigger (some (.str "hello, hi")) none none (pmsOn "hello" 7 none false stEmpty)).2 = []
    ∧ (trigger (some (.str "hello")) none none (pmsOn "hello" 7 none false stEmpty)).2
        = [⟨7, none, ⟨some (.str "hello"), .null, none⟩⟩]
    ∧ splitTokens "hello, hi" = ["hello", "hi"] := by
  decide

/-- Claim C3 counterexample: with connectionID `"svc1"` configured and a
`"message"` subscriber present, the malformed payload `"oops"` produces *no*
dispatch and a TypeError escapes to the caller (`parsed` is undefined when the
filter condition reads `parsed.connectionID`), refuting "for every local
connectionID setting ... the dispatch is never skipped and no error escapes". -/
theorem raw_fallback_throws_with_connectionID :
    (processMessage "oops" stSvc1Msg).map Prod.snd = Except.error () := by
  decide

/-- Claim C3 (amended): on a payload that fails structured decoding, when the
local connectionID is unset the filter short-circuits and `receive` dispatches
under the reserved type `"message"` with null data and the original raw
payload as `rawEvent`; when a local connectionID is set, the dispatch is
skipped and a TypeError escapes to the caller (the filter reads
`parsed.connectionID` on the undefined parse result). -/
theorem processMessage_decode_failure (s : String) (st : PMSState)
    (hparse : jsonParse s = none) :
    (st.connectionID = none →
      processMessage s st
        = Except.ok (trigger (some (.str "message")) (some .null) (some (.str s)) st)) ∧
    (∀ c, st.connectionID = some c → processMessage s st = Except.error ()) := by
  constructor
  · intro h; simp [processMessage, hparse, h]
  · intro c h; simp [processMessage, hparse, h]

/-- Witness for C3's amended theorem at the payload `"oops"` with the
connectionID unset. -/
theorem processMessage_decode_failure_witness :
    jsonParse "oops" = none ∧
    ((stEmpty.connectionID = none →
      processMessage "oops" stEmpty
        = Except.ok (trigger (some (.str "message")) (some .null)
            (some (.str "oops")) stEmpty)) ∧
    (∀ c, stEmpty.connectionID = some c →
      processMessage "oops" stEmpty = Except.error ())) :=
  ⟨by decide, processMessage_decode_failure "oops" stEmpty (by decide)⟩

/-- Claim C4 counterexample: `send(type, "")` supplies a string — not a keyed
structure — yet succeeds, encoding the data as null (`data = data || null`
collapses every falsy scalar before the type test), refuting "raises ... if
and only if data is supplied and is not a keyed structure". -/
theorem send_empty_string_succeeds :
    send (.str "t") (some (.str "")) stEmpty
      = Except.ok "\x7b\"connectionID\":null,\"data\":null,\"type\":\"t\"\x7d" := by
  decide

/-- Claim C4 (amended): `send` raises the TypeError iff data is supplied,
truthy, and not of object type — so `send(type, "a string")` fails and
`send(type, {a:1})` succeeds, but falsy scalars (`""`, `0`, `false`) are
treated like absent data and encode as null; absent data is allowed and
encodes as null; on failure no wire string is produced. -/
theorem send_error_iff (type : JSValue) (data : Option JSValue) (st : PMSState) :
    (send type data st = Except.error ()
      ↔ ∃ v, data = some v ∧ jsTruthy v = true ∧ jsTypeof v ≠ "object") ∧
    send type none st
      = Except.ok (jsonStringify (.obj
          [("connectionID", cidValue st.connectionID), ("data", .null), ("type", type)])) := by
  constructor
  · cases data with
    | none =>
      refine iff_of_false ?_ ?_
      · simp [send, jsOrNull, jsTypeof]
      · rintro ⟨v, hv, -, -⟩; cases hv
    | some v =>
      by_cases ht : jsTruthy v = true
      · have hd : jsOrNull (some v) = v := by simp [jsOrNull, ht]
        by_cases ho : jsTypeof v = "object"
        · refine iff_of_false ?_ ?_
          · simp [send, hd, ho]
          · rintro ⟨v', hv, -, ho'⟩
            exact ho' ((Option.some.inj hv) ▸ ho)
        · refine iff_of_true ?_ ⟨v, rfl, ht, ho⟩
          simp [send, hd, ho]
      · have hd : jsOrNull (some v) = .null := by
          simp only [jsOrNull]
          rw [if_neg ht]
        refine iff_of_false ?_ ?_
        · simp [send, hd, jsTypeof]
        · rintro ⟨v', hv, ht', -⟩
          exact ht ((Option.some.inj hv) ▸ ht')
  · simp [send, jsOrNull, jsTypeof]

/-- Claim C5: with the source-identity check passed and a decoded envelope
(an object), `receive` dispatches — observably through a wildcard subscriber —
precisely when the local connectionID is absent or equals the envelope's
`connectionID` field. -/
theorem receive_accepts_iff (e : MessageEvent) (st : PMSState)
    (fs : List (String × JSValue))
    (hsrc : jsRefEq e.source st.targetWindow = true)
    (hparse : jsonParse e.data = some (.obj fs))
    (hobs : st.callbacks "all" ≠ []) :
    ∃ st' out, receive e st = Except.ok (st', out) ∧
      (out ≠ [] ↔ (st.connectionID = none ∨
        ∃ c, st.connectionID = some c
          ∧ lookupLast fs "connectionID" = some (.str c))) := by
  have hrecv : receive e st = processMessage e.data st := by simp [receive, hsrc]
  have hall : (st.callbacks "all").map
      (fun r => (⟨r.callback, r.context,
        ⟨getProp (.obj fs) "type", jsOrNull (getProp (.obj fs) "data"),
          some (.obj fs)⟩⟩ : Invocation)) ≠ [] := by
    intro hnil
    exact hobs (List.map_eq_nil_iff.mp hnil)
  rw [hrecv]
  simp only [processMessage, hparse]
  cases hcid : st.connectionID with
  | none =>
    refine ⟨st, _, by rw [trigger_spec], ?_⟩
    refine iff_of_true ?_ (Or.inl rfl)
    intro hnil
    rcases List.append_eq_nil.mp hnil with ⟨-, h2⟩
    exact hall h2
  | some c =>
    by_cases hmatch : getProp (.obj fs) "connectionID" = some (.str c)
    · simp only [if_pos hmatch]
      refine ⟨st, _, by rw [trigger_spec], ?_⟩
      refine iff_of_true ?_ (Or.inr ⟨c, rfl, hmatch⟩)
      intro hnil
      rcases List.append_eq_nil.mp hnil with ⟨-, h2⟩
      exact hall h2
    · simp only [if_neg hmatch]
      refine ⟨st, [], rfl, iff_of_false (by simp) ?_⟩
      rintro (hno | ⟨c', hc', hl⟩)
      · cases hno
      · exact hmatch ((Option.some.inj hc') ▸ hl)

/-- Witness for C5 at a matching envelope (`connectionID "svc1"` on both
sides) with a wildcard observer. -/
theorem receive_accepts_iff_witness :
    jsRefEq (JSRef.window 0) stObs.targetWindow = true ∧
    jsonParse "\x7b\"connectionID\":\"svc1\",\"type\":\"t\"\x7d"
      = some (.obj [("connectionID", .str "svc1"), ("type", .str "t")]) ∧
    stObs.callbacks "all" ≠ [] ∧
    (∃ st' out,
      receive ⟨.window 0, "\x7b\"connectionID\":\"svc1\",\"type\":\"t\"\x7d"⟩ stObs
        = Except.ok (st', out) ∧
      (out ≠ [] ↔ (stObs.connectionID = none ∨
        ∃ c, stObs.connectionID = some c
          ∧ lookupLast [("connectionID", .str "svc1"), ("type", .str "t")] "connectionID"
              = some (.str c)))) := by
  refine ⟨by decide, by decide, by decide, ?_⟩
  exact receive_accepts_iff ⟨.window 0, "\x7b\"connectionID\":\"svc1\",\"type\":\"t\"\x7d"⟩
    stObs _ (by decide) (by decide) (by decide)

/-- Claim C6: decoding the wire string produced by encoding
`(id, type, data)` recovers the original connectionID, type and data, for
every keyed-structure (`typeof === 'object'`) data value.  (The hypothesis
mirrors the claim's quantification and `send`'s type gate; the round-trip
itself holds for every value of the universe.) -/
theorem decode_encode_roundtrip (id type : String) (data : JSValue)
    (_hkind : jsTypeof data = "object") :
    decodeEnvelope (encodeEnvelope id type data)
      = some (some (.str id), some (.str type), some data) := by
  have h := jsonParse_stringify
    (.obj [("connectionID", .str id), ("data", data), ("type", .str type)])
  simp only [encodeEnvelope, decodeEnvelope, h]
  rfl

/-- Witness for C6 at `id = "svc1"`, `type = "hello"`, `data = {a: 1}`. -/
theorem decode_encode_roundtrip_witness :
    jsTypeof (JSValue.obj [("a", .num 1)]) = "object" ∧
    decodeEnvelope (encodeEnvelope "svc1" "hello" (.obj [("a", .num 1)]))
      = some (some (.str "svc1"), some (.str "hello"), some (.obj [("a", .num 1)])) :=
  ⟨by decide, decode_encode_roundtrip "svc1" "hello" _ (by decide)⟩

/-- Claim C7: an inbound message whose source is not reference-identical to
the configured target window is dropped before decoding: the state is
unchanged and nothing is dispatched, whatever the payload. -/
theorem receive_source_mismatch_drops (e : MessageEvent) (st : PMSState)
    (hsrc : jsRefEq e.source st.targetWindow = false) :
    receive e st = Except.ok (st, []) := by
  simp [receive, hsrc]

/-- Witness for C7: window `1` sends a well-formed matching envelope to an
endpoint bound to window `0`; nothing happens. -/
theorem receive_source_mismatch_drops_witness :
    jsRefEq (JSRef.window 1) stPeer.targetWindow = false ∧
    receive ⟨.window 1, encodeEnvelope "svc1" "t" (.obj [])⟩ stPeer
      = Except.ok (stPeer, []) :=
  ⟨by decide, receive_source_mismatch_drops _ _ (by decide)⟩

/-- Claim C8: `set` replaces the target window, target origin and
connectionID wholesale — the new configuration is independent of the previous
one — and leaves the `_callbacks` registry untouched, so every subscription
registered before `set` is still registered, in the same order, after it. -/
theorem set_replaces_config_preserves_subscriptions
    (sets : Settings) (st st2 : PMSState) :
    (pmsSet sets st).callbacks = st.callbacks ∧
    (pmsSet sets st).targetWindow = (pmsSet sets st2).targetWindow ∧
    (pmsSet sets st).targetOrigin = (pmsSet sets st2).targetOrigin ∧
    (pmsSet sets st).connectionID = (pmsSet sets st2).connectionID := by
  simp [pmsSet]

/-- Claim C9: every dispatch invokes, with the same fresh event, first all the
records registered under the event's type key (in registration order) and
then all the records registered under the wildcard key `"all"` (in
registration order): type-specific subscribers fire before any wildcard
subscriber, and every wildcard subscriber receives the event. -/
theorem trigger_fires_wildcard_after_specific
    (type data rawEvent : Option JSValue) (st : PMSState) :
    (trigger type data rawEvent st).2
      = (st.callbacks (jsKey type)).map
          (fun r => ⟨r.callback, r.context, ⟨type, jsOrNull data, rawEvent⟩⟩)
        ++ (st.callbacks "all").map
          (fun r => ⟨r.callback, r.context, ⟨type, jsOrNull data, rawEvent⟩⟩) := by
  rw [trigger_spec]

/-- Claim C10 counterexample: the payload `"null"` is accepted by
`JSON.parse` and denotes a non-object value, yet with the connectionID unset
the reserved `"message"` fallback *is* used (the `parsed.type` access inside
the try throws on null), refuting "the 'message' fallback is taken only when
JSON.parse throws". -/
theorem null_payload_uses_message_fallback :
    jsonParse "null" = some JSValue.null ∧
    (processMessage "null" (pmsOn "message" 9 none false stEmpty)).map Prod.snd
      = Except.ok [⟨9, none, ⟨some (.str "message"), .null, some (.str "null")⟩⟩] := by
  decide

/-- Claim C10 (amended): for every payload that `JSON.parse` accepts and that
denotes a non-object, *non-null* value, with the local connectionID unset,
`receive` does not use the `"message"` fallback: it dispatches under the
parsed value's absent — hence `undefined` — type field with null data and the
parsed value as `rawEvent`, so only subscribers of the key `"undefined"` and
wildcard `"all"` subscribers observe it.  (The fallback is taken when
`JSON.parse` throws, and also when the parsed value is null.) -/
theorem processMessage_nonobject_bypasses_fallback
    (s : String) (v : JSValue) (st : PMSState)
    (hparse : jsonParse s = some v) (hnn : v ≠ .null) (hno : ∀ fs, v ≠ .obj fs)
    (hcid : st.connectionID = none) :
    processMessage s st = Except.ok (trigger none none (some v) st) ∧
    (trigger none none (some v) st).2
      = (st.callbacks "undefined").map
          (fun r => ⟨r.callback, r.context, ⟨none, .null, some v⟩⟩)
        ++ (st.callbacks "all").map
          (fun r => ⟨r.callback, r.context, ⟨none, .null, some v⟩⟩) := by
  have hty : getProp v "type" = none := getProp_nonobject (by decide) (by decide) hno
  have hda : getProp v "data" = none := getProp_nonobject (by decide) (by decide) hno
  constructor
  · cases v with
    | null => exact absurd rfl hnn
    | obj fs => exact absurd rfl (hno fs)
    | bool b => simp [processMessage, hparse, hcid, hty, hda]
    | num n => simp [processMessage, hparse, hcid, hty, hda]
    | str s2 => simp [processMessage, hparse, hcid, hty, hda]
    | arr l => simp [processMessage, hparse, hcid, hty, hda]
  · rw [trigger_spec]
    rfl

/-- Witness for C10's amended theorem at the payload `"5"` with a subscriber
under the key `"undefined"`. -/
theorem processMessage_nonobject_bypasses_fallback_witness :
    jsonParse "5" = some (JSValue.num 5) ∧
    (processMessage "5" (pmsOn "undefined" 3 none false stEmpty)).map Prod.snd
      = Except.ok [⟨3, none, ⟨none, .null, some (.num 5)⟩⟩] := by
  refine ⟨by decide, ?_⟩
  have h := processMessage_nonobject_bypasses_fallback "5" (.num 5)
    (pmsOn "undefined" 3 none false stEmpty) (by decide) (by decide)
    (fun fs => by simp) (by decide)
  rw [h.1]
  decide
